import Mathlib

/-!
# Membership gossip (`main.go`): a shallow embedding

The Go program keeps one process-wide `members` value (`gMembers`): the node's
own address, the set of known addresses (`map[string]struct{}`) and the slice
`randomizedMemberList` from which gossip targets are taken.

Modelling choices:

* a `map[string]struct{}` is a `Finset String`; the assignment
  `m[k] = struct{}{}` is `insert k m`;
* `for k := range m` visits every key of `m` exactly once, in an order the
  language leaves open: every loop over a map takes the visiting order as an
  explicit list argument, and `IsRange m ks` says that `ks` is such an order;
* a run-time panic (index out of range) is the `Except.error` result;
* the command-line flags `listenAddress` and `initialPeer` are the fields of
  `Flags`;
* in the sequential part every operation is one atomic step on the state, and
  the refresh that `gossipHandler` spawns with `go` is a step of its own;
* the lock and the interleaving of the spawned refresh with the dissemination
  loop are modelled statement by statement in `refreshStep`.
-/

set_option linter.dupNamespace false

namespace Gossip

/-- The flags read by `kingpin.Parse()` that the membership code consults. -/
structure Flags where
  listenAddress : String
  initialPeer : String
  deriving DecidableEq, Repr

/-- The struct `members` (the lock is not modelled). -/
structure members where
  self : String
  members : Finset String
  randomizedMemberList : List String
  deriving DecidableEq

/-- A run-time panic of the Go program. -/
inductive Panic where
  | indexOutOfRange
  deriving DecidableEq, Repr

/-- The error values of the program: the one built by `fmt.Errorf` in
`getRandomMember`, and the two kinds of error `json.Unmarshal` reports. -/
inductive GoError where
  | noMembers
  | jsonSyntax
  | jsonType
  deriving DecidableEq, Repr

/-- A JSON value. -/
inductive JSON where
  | null
  | bool (b : Bool)
  | number (n : Int)
  | string (s : String)
  | array (xs : List JSON)
  | object (fields : List (String × JSON))

/-- The bytes of a request body: a JSON text, or bytes that are no JSON text. -/
inductive Body where
  | garbage
  | json (v : JSON)

/-- What `writer` has received when the handler returns: the status code (200
when `WriteHeader` was never called) and the bytes written. -/
structure Response where
  status : Nat
  body : String
  deriving DecidableEq, Repr

/-- What one pass of the dissemination loop does before it waits for the
ticker: it jumps to `WAIT` without a request, or it posts the payload (the keys
of the marshalled map) to a URL. -/
inductive RoundAction where
  | skipped
  | posted (url : String) (payload : Finset String)
  deriving DecidableEq

/-- An order in which a `range` loop visits a map, for each map it may meet. -/
abbrev RangeOrder := Finset String → List String

/-- A list `ks` is an order in which `for k := range s` may visit the keys of
the map `s`: every key once. -/
def IsRange (s : Finset String) (ks : List String) : Prop :=
  ks.Nodup ∧ ks.toFinset = s

instance (s : Finset String) (ks : List String) : Decidable (IsRange s ks) := by
  unfold IsRange; infer_instance

/-- The constructor `newMembers(self)`: an empty map and a slice of length one
holding the zero string. -/
def newMembers (self : String) : members :=
  { self := self, members := ∅, randomizedMemberList := [""] }

/-- The method `initialMembers`: adds `self` and, when non-empty, the initial
peer to the map, then stores the initial peer at index 0 of the slice (a panic
when the slice is empty). -/
def initialMembers (f : Flags) (m : members) : Except Panic members :=
  let ms := insert m.self m.members
  let ms := if f.initialPeer ≠ "" then insert f.initialPeer ms else ms
  match m.randomizedMemberList with
  | [] => .error .indexOutOfRange
  | _ :: rest => .ok { m with members := ms, randomizedMemberList := f.initialPeer :: rest }

/-- The loop of `randomizeMembers` over the keys in visiting order `ks`,
appending to the slice `acc` every key other than `listenAddress`. -/
def randomizeLoop (f : Flags) : List String → List String → List String
  | [], acc => acc
  | k :: ks, acc =>
    if k = f.listenAddress then randomizeLoop f ks acc
    else randomizeLoop f ks (acc ++ [k])

/-- The method `randomizeMembers`: replaces the slice by a fresh empty one and
fills it from the map, visited in the order `order m.members`. -/
def randomizeMembers (f : Flags) (m : members) (order : RangeOrder) : members :=
  { m with randomizedMemberList := randomizeLoop f (order m.members) [] }

/-- The method `getRandomMember`: reads index 0 (a panic on an empty slice);
when that string is empty returns it with the error and leaves the slice as it
is; otherwise drops it from the front, appends it at the back and returns it
with no error. -/
def getRandomMember (m : members) : Except Panic (members × String × Option GoError) :=
  match m.randomizedMemberList with
  | [] => .error .indexOutOfRange
  | rand :: rest =>
    if rand = "" then .ok (m, rand, some .noMembers)
    else .ok ({ m with randomizedMemberList := rest ++ [rand] }, rand, none)

/-- Whether `json.Unmarshal` stores a JSON value into a `struct{}` without a
type error: an object (its fields are all unknown, hence skipped) or `null`. -/
def fitsEmptyStruct : JSON → Bool
  | .null => true
  | .object _ => true
  | _ => false

/-- The call `json.Unmarshal(b, &members)` on the fresh map of `gossipHandler`,
after the documented behaviour of `encoding/json`: the keys the map holds
afterwards, and the error returned. Bytes that are no JSON text are rejected
before anything is stored. A JSON object stores every key, also a key whose
value does not fit `struct{}`: that value is skipped, the earliest such
mismatch is the error returned, and decoding goes on. Any other JSON value but
`null` is a type mismatch that stores nothing. -/
def jsonUnmarshal : Body → Finset String × Option GoError
  | .garbage => (∅, some .jsonSyntax)
  | .json .null => (∅, none)
  | .json (.object fields) =>
    ((fields.map Prod.fst).toFinset,
      if fields.all (fun kv => fitsEmptyStruct kv.2) then none else some .jsonType)
  | .json _ => (∅, some .jsonType)

/-- The call `json.Marshal(gMembers.members)`: the payload is the JSON object
with the keys of the map; encoding a map from strings to `struct{}` has no
error case. -/
def jsonMarshal (ms : Finset String) : Finset String × Option GoError :=
  (ms, none)

/-- The loop of `gossipHandler` over the decoded keys in visiting order:
`gMembers.members[k] = struct{}{}` for each. -/
def mergeLoop : List String → Finset String → Finset String
  | [], ms => ms
  | k :: ks, ms => mergeLoop ks (insert k ms)

/-- The function `gossipHandler`, up to the `go` statement: decode the body
into a fresh map (the error is dropped), store every decoded key into
`gMembers.members`, write "success". The spawned `randomizeMembers` is a later
step of its own. -/
def gossipHandler (g : members) (b : Body) (order : RangeOrder) : members × Response :=
  let decoded := (jsonUnmarshal b).1
  ({ g with members := mergeLoop (order decoded) g.members },
    { status := 200, body := "success" })

/-- One pass of the dissemination loop in `main`, from the call of
`getRandomMember` to the label `WAIT`. The variable `err` assigned by
`getRandomMember` is assigned again by `json.Marshal` before it is read. -/
def gossipRound (g : members) : Except Panic (members × RoundAction) :=
  match getRandomMember g with
  | .error p => .error p
  | .ok (g1, peer, _) =>
    match jsonMarshal g1.members with
    | (_, some _) => .ok (g1, .skipped)
    | (membersPayload, none) =>
      .ok (g1, .posted ("http://" ++ peer ++ "/gossip") membersPayload)

/-- The state of `gMembers` when `main` has run `newMembers(*listenAddress)`
and `initialMembers()`. -/
def startup (f : Flags) : Except Panic members :=
  initialMembers f (newMembers f.listenAddress)

/-- Calls `getRandomMember` `n` times in a row, collecting the results. -/
def getRandomMemberN : Nat → members → Except Panic (members × List (String × Option GoError))
  | 0, m => .ok (m, [])
  | n + 1, m =>
    match getRandomMember m with
    | .error p => .error p
    | .ok (m1, rand, err) =>
      match getRandomMemberN n m1 with
      | .error p => .error p
      | .ok (m2, rs) => .ok (m2, (rand, err) :: rs)

/-- The visiting order that is `ks` whatever the map: a `range` order for the
maps whose keys are those of `ks`. -/
def fixedOrder (ks : List String) : RangeOrder := fun _ => ks

/-- The states of `gMembers` that a run of the program passes through, each
operation taken as one step: the state left by `main` before the loop starts,
then any sequence of served gossip requests, refreshes and rounds of the
dissemination loop. -/
inductive Reachable (f : Flags) : members → Prop where
  | init (m : members) : startup f = .ok m → Reachable f m
  | handler (m : members) (b : Body) (order : RangeOrder) :
      Reachable f m → IsRange (jsonUnmarshal b).1 (order (jsonUnmarshal b).1) →
      Reachable f (gossipHandler m b order).1
  | refresh (m : members) (order : RangeOrder) :
      Reachable f m → IsRange m.members (order m.members) →
      Reachable f (randomizeMembers f m order)
  | round (m m1 : members) (act : RoundAction) :
      Reachable f m → gossipRound m = .ok (m1, act) → Reachable f m1

/-- The visiting order that takes the keys of every map in sorted order. -/
def sortedOrder : RangeOrder := fun s => s.sort (· ≤ ·)

/-- The body that a round posts for a payload: the JSON object written by
`json.Marshal` for the map, one field with the value `{}` per key, the keys
sorted. -/
def payloadBody (payload : Finset String) : Body :=
  .json (.object ((payload.sort (· ≤ ·)).map (fun k => (k, JSON.object []))))

/-- A node serving a pushed payload: `gossipHandler` on the posted body, then
the `randomizeMembers` that the handler spawned. The orders `o` and `r` are
those of the two `range` loops. -/
def serve (f : Flags) (g : members) (payload : Finset String) (o r : RangeOrder) : members :=
  randomizeMembers f (gossipHandler g (payloadBody payload) o).1 r

/-- One pass of the dissemination loop with the outcome of `http.Post` made
explicit: `postFails` tells whether the request, when one is made, comes back
with a transport error. The loop prints that error and does nothing else with
it; the last component of the result is whether an error was printed. -/
def gossipRoundPost (g : members) (postFails : Bool) :
    Except Panic (members × RoundAction × Bool) :=
  match gossipRound g with
  | .error p => .error p
  | .ok (g1, .skipped) => .ok (g1, .skipped, false)
  | .ok (g1, .posted url payload) => .ok (g1, .posted url payload, postFails)

/-- One operation of the subsystem on the state of `gMembers`:
`initialMembers`, the merge of `gossipHandler`, `randomizeMembers`,
`getRandomMember`, or a gossip round with either outcome of the push. -/
inductive Step (f : Flags) : members → members → Prop where
  | init (m m1 : members) : initialMembers f m = .ok m1 → Step f m m1
  | merge (m : members) (b : Body) (order : RangeOrder) : Step f m (gossipHandler m b order).1
  | refresh (m : members) (order : RangeOrder) : Step f m (randomizeMembers f m order)
  | target (m m1 : members) (r : String) (e : Option GoError) :
      getRandomMember m = .ok (m1, r, e) → Step f m m1
  | round (m m1 : members) (postFails : Bool) (act : RoundAction) (printed : Bool) :
      gossipRoundPost m postFails = .ok (m1, act, printed) → Step f m m1

/-- The state of `m.lock`, a `sync.RWMutex`: how many goroutines hold the read
lock, and whether the write lock is held. -/
structure RWMutex where
  readers : Nat
  writer : Bool
  deriving DecidableEq, Repr

/-- The program points of a goroutine that runs `randomizeMembers`: before
`m.lock.RLock()`; holding the read lock, before the slice is replaced; in the
`range` loop with the keys still to visit (`m.lock.RUnlock()` comes when none is
left); returned. -/
inductive RefreshPC where
  | atRLock
  | atMake
  | atLoop (rest : List String)
  | done
  deriving DecidableEq, Repr

/-- One statement of a goroutine running `randomizeMembers`, on the shared
state and the lock; `none` when the goroutine is blocked (a writer holds the
lock) or has returned. -/
def refreshStep (f : Flags) (order : RangeOrder) :
    members × RWMutex × RefreshPC → Option (members × RWMutex × RefreshPC)
  | (m, l, .atRLock) =>
    if l.writer then none else some (m, { l with readers := l.readers + 1 }, .atMake)
  | (m, l, .atMake) =>
    some ({ m with randomizedMemberList := [] }, l, .atLoop (order m.members))
  | (m, l, .atLoop (k :: rest)) =>
    if k = f.listenAddress then some (m, l, .atLoop rest)
    else some ({ m with randomizedMemberList := m.randomizedMemberList ++ [k] }, l, .atLoop rest)
  | (m, l, .atLoop []) => some (m, { l with readers := l.readers - 1 }, .done)
  | (_, _, .done) => none

/-- The first `n` statements of a goroutine running `randomizeMembers`, with
no other goroutine in between. -/
def refreshSteps (f : Flags) (order : RangeOrder) :
    Nat → members × RWMutex × RefreshPC → Option (members × RWMutex × RefreshPC)
  | 0, s => some s
  | n + 1, s =>
    match refreshStep f order s with
    | none => none
    | some s1 => refreshSteps f order n s1

/-! ## Lemmas on the loops -/

theorem mem_mergeLoop (ks : List String) (ms : Finset String) (a : String) :
    a ∈ mergeLoop ks ms ↔ a ∈ ms ∨ a ∈ ks := by
  induction ks generalizing ms with
  | nil => simp [mergeLoop]
  | cons k ks ih =>
    simp only [mergeLoop, ih, Finset.mem_insert, List.mem_cons]
    tauto

theorem mergeLoop_eq_union (ks : List String) (ms : Finset String) :
    mergeLoop ks ms = ms ∪ ks.toFinset := by
  ext a
  simp [mem_mergeLoop]

theorem mergeLoop_of_isRange {s : Finset String} {ks : List String} (h : IsRange s ks)
    (ms : Finset String) : mergeLoop ks ms = ms ∪ s := by
  rw [mergeLoop_eq_union, h.2]

theorem mem_randomizeLoop (f : Flags) (ks acc : List String) (a : String) :
    a ∈ randomizeLoop f ks acc ↔ a ∈ acc ∨ (a ∈ ks ∧ a ≠ f.listenAddress) := by
  induction ks generalizing acc with
  | nil => simp [randomizeLoop]
  | cons k ks ih =>
    unfold randomizeLoop
    by_cases hk : k = f.listenAddress
    · simp only [hk, if_true, ih, List.mem_cons]
      constructor
      · rintro (h | ⟨h, hne⟩)
        · exact Or.inl h
        · exact Or.inr ⟨Or.inr h, hne⟩
      · rintro (h | ⟨h | h, hne⟩)
        · exact Or.inl h
        · exact absurd h hne
        · exact Or.inr ⟨h, hne⟩
    · simp only [hk, if_false, ih, List.mem_append, List.mem_cons, List.not_mem_nil, or_false]
      constructor
      · rintro ((h | h) | ⟨h, hne⟩)
        · exact Or.inl h
        · exact Or.inr ⟨Or.inl h, h ▸ hk⟩
        · exact Or.inr ⟨Or.inr h, hne⟩
      · rintro (h | ⟨h | h, hne⟩)
        · exact Or.inl (Or.inl h)
        · exact Or.inl (Or.inr h)
        · exact Or.inr ⟨h, hne⟩

theorem getRandomMemberN_append (self : String) (ms : Finset String) (xs : List String) :
    ∀ ys : List String, "" ∉ xs →
      getRandomMemberN xs.length ⟨self, ms, xs ++ ys⟩
        = .ok (⟨self, ms, ys ++ xs⟩, xs.map (fun a => (a, none))) := by
  induction xs with
  | nil => intro ys _; simp [getRandomMemberN]
  | cons x xs ih =>
    intro ys hx
    have hx0 : x ≠ "" := fun h => hx (by simp [h])
    have hxs : "" ∉ xs := fun h => hx (by simp [h])
    have h1 : getRandomMember ⟨self, ms, x :: xs ++ ys⟩
        = .ok (⟨self, ms, xs ++ (ys ++ [x])⟩, x, none) := by
      simp [getRandomMember, hx0]
    simp only [List.length_cons, getRandomMemberN, h1, ih (ys ++ [x]) hxs]
    simp

theorem exists_body_of_payload (P : Finset String) :
    ∃ b : Body, jsonUnmarshal b = (P, none) := by
  refine ⟨.json (.object (P.toList.map (fun k => (k, JSON.object [])))), ?_⟩
  simp [jsonUnmarshal, fitsEmptyStruct, List.map_map, Function.comp_def]

theorem startup_eq (f : Flags) :
    startup f = .ok ⟨f.listenAddress,
      if f.initialPeer ≠ "" then insert f.initialPeer {f.listenAddress} else {f.listenAddress},
      [f.initialPeer]⟩ := by
  simp [startup, initialMembers, newMembers]

theorem getRandomMember_self (m m1 : members) (r : String) (e : Option GoError)
    (h : getRandomMember m = .ok (m1, r, e)) : m1.self = m.self ∧ m1.members = m.members := by
  unfold getRandomMember at h
  split at h
  · cases h
  · split at h
    · cases h; exact ⟨rfl, rfl⟩
    · cases h; exact ⟨rfl, rfl⟩

theorem gossipRound_self (m m1 : members) (act : RoundAction)
    (h : gossipRound m = .ok (m1, act)) : m1.self = m.self ∧ m1.members = m.members := by
  unfold gossipRound at h
  split at h
  · cases h
  · rename_i g1 peer e hg
    have hs := getRandomMember_self m g1 peer e hg
    simp only [jsonMarshal] at h
    cases h
    exact hs

theorem Reachable.self_eq {f : Flags} {m : members} (h : Reachable f m) :
    m.self = f.listenAddress := by
  induction h with
  | init m hm =>
    rw [startup_eq] at hm
    cases hm
    rfl
  | handler m b order _ _ ih => exact ih
  | refresh m order _ _ ih => exact ih
  | round m m1 act _ hr ih => rw [(gossipRound_self m m1 act hr).1]; exact ih

/-! ## The claims -/

/-- C1 (the code departs from the claim): a node "a" started without a seed
that has served one gossip request with body `{}` and run the refresh spawned
by it has an empty rotation queue, and the next `getRandomMember` panics with
an index out of range instead of returning its error. -/
theorem getRandomMember_panics_on_empty_queue :
    ∃ m0 : members,
      startup ⟨"a", ""⟩ = .ok m0 ∧
      IsRange (gossipHandler m0 (.json (.object [])) (fixedOrder [])).1.members ["a"] ∧
      (randomizeMembers ⟨"a", ""⟩ (gossipHandler m0 (.json (.object [])) (fixedOrder [])).1
          (fixedOrder ["a"])).randomizedMemberList = [] ∧
      getRandomMember
          (randomizeMembers ⟨"a", ""⟩ (gossipHandler m0 (.json (.object [])) (fixedOrder [])).1
            (fixedOrder ["a"]))
        = .error .indexOutOfRange :=
  ⟨⟨"a", {"a"}, [""]⟩, rfl, by decide, rfl, rfl⟩

/-- C2: when the body decodes without error to the key set `P`, the Membership
Set after `gossipHandler` is the union of the set before and `P`: an address is
in it exactly when it was in the set before or in `P`. -/
theorem gossipHandler_members_eq_union (g : members) (b : Body) (order : RangeOrder)
    (P : Finset String) (hdec : jsonUnmarshal b = (P, none)) (hrange : IsRange P (order P)) :
    (gossipHandler g b order).1.members = g.members ∪ P ∧
      ∀ a : String, a ∈ (gossipHandler g b order).1.members ↔ a ∈ g.members ∨ a ∈ P := by
  have h : (gossipHandler g b order).1.members = g.members ∪ P := by
    simp only [gossipHandler, hdec]
    exact mergeLoop_of_isRange hrange g.members
  exact ⟨h, fun a => by rw [h, Finset.mem_union]⟩

/-- C2, at a concrete input: the node "a" knowing {"a", "c"} receives the body
`{"b":{},"c":{}}`. -/
theorem gossipHandler_members_eq_union_witness :
    jsonUnmarshal (.json (.object [("b", .object []), ("c", .object [])])) = ({"b", "c"}, none) ∧
    IsRange {"b", "c"} (fixedOrder ["c", "b"] {"b", "c"}) ∧
    ((gossipHandler ⟨"a", {"a", "c"}, ["c"]⟩
        (.json (.object [("b", .object []), ("c", .object [])])) (fixedOrder ["c", "b"])).1.members
        = {"a", "c"} ∪ {"b", "c"} ∧
      ∀ a : String,
        a ∈ (gossipHandler ⟨"a", {"a", "c"}, ["c"]⟩
          (.json (.object [("b", .object []), ("c", .object [])])) (fixedOrder ["c", "b"])).1.members
          ↔ a ∈ ({"a", "c"} : Finset String) ∨ a ∈ ({"b", "c"} : Finset String)) :=
  ⟨rfl, by decide,
    gossipHandler_members_eq_union _ _ _ {"b", "c"} rfl (by decide)⟩

/-- C3 (the claim as stated fails): the body `{"x":1}` fails to deserialize (a
number does not fit `struct{}`), yet its key "x" is merged: the Membership Set
{"a"} becomes a set that holds "x". -/
theorem gossipHandler_merges_failed_decode :
    jsonUnmarshal (.json (.object [("x", .number 1)])) = ({"x"}, some .jsonType) ∧
    IsRange {"x"} (fixedOrder ["x"] {"x"}) ∧
    "x" ∈ (gossipHandler ⟨"a", {"a"}, [""]⟩ (.json (.object [("x", .number 1)]))
        (fixedOrder ["x"])).1.members ∧
    (gossipHandler ⟨"a", {"a"}, [""]⟩ (.json (.object [("x", .number 1)]))
        (fixedOrder ["x"])).1.members ≠ {"a"} := by
  refine ⟨rfl, by decide, ?_, ?_⟩
  · simp [gossipHandler, jsonUnmarshal, fixedOrder, mergeLoop]
  · simp [gossipHandler, jsonUnmarshal, fixedOrder, mergeLoop]

/-- C3, amended: when the body fails to deserialize and the decoder has stored
the keys `K` before or despite the error, `gossipHandler` merges `K`: the
Membership Set afterwards is the set before united with `K`; it equals the set
before exactly when every key of `K` was a member already, and always for a
body that is no JSON text. -/
theorem gossipHandler_failed_decode_members (g : members) (b : Body) (order : RangeOrder)
    (K : Finset String) (e : GoError) (hdec : jsonUnmarshal b = (K, some e))
    (hrange : IsRange K (order K)) :
    (gossipHandler g b order).1.members = g.members ∪ K ∧
      ((gossipHandler g b order).1.members = g.members ↔ K ⊆ g.members) ∧
      (b = Body.garbage → (gossipHandler g b order).1.members = g.members) := by
  have h : (gossipHandler g b order).1.members = g.members ∪ K := by
    simp only [gossipHandler, hdec]
    exact mergeLoop_of_isRange hrange g.members
  refine ⟨h, ?_, ?_⟩
  · rw [h, Finset.union_eq_left]
  · intro hb
    subst hb
    have hK : K = ∅ := by
      have := congrArg Prod.fst hdec
      simpa [jsonUnmarshal] using this.symm
    rw [h, hK, Finset.union_empty]

/-- C3 amended, at a concrete input: the node "a" knowing {"a"} receives the
body `{"a":true}`. -/
theorem gossipHandler_failed_decode_members_witness :
    jsonUnmarshal (.json (.object [("a", .bool true)])) = ({"a"}, some .jsonType) ∧
    IsRange {"a"} (fixedOrder ["a"] {"a"}) ∧
    ((gossipHandler ⟨"a", {"a"}, [""]⟩ (.json (.object [("a", .bool true)]))
        (fixedOrder ["a"])).1.members = {"a"} ∪ {"a"} ∧
      ((gossipHandler ⟨"a", {"a"}, [""]⟩ (.json (.object [("a", .bool true)]))
        (fixedOrder ["a"])).1.members = {"a"} ↔ ({"a"} : Finset String) ⊆ {"a"}) ∧
      (Body.json (.object [("a", .bool true)]) = Body.garbage →
        (gossipHandler ⟨"a", {"a"}, [""]⟩ (.json (.object [("a", .bool true)]))
          (fixedOrder ["a"])).1.members = {"a"})) :=
  ⟨rfl, by decide,
    gossipHandler_failed_decode_members _ _ _ {"a"} .jsonType rfl (by decide)⟩

/-- C4 (the claim as stated fails): for a body that is no JSON text,
deserialization fails and `gossipHandler` still answers with status 200 and the
body "success", not with a status in the 4xx range. -/
theorem gossipHandler_success_on_garbage :
    (jsonUnmarshal Body.garbage).2 = some GoError.jsonSyntax ∧
    (gossipHandler ⟨"a", {"a"}, [""]⟩ Body.garbage (fixedOrder [])).2
      = { status := 200, body := "success" } ∧
    ¬ (400 ≤ (gossipHandler ⟨"a", {"a"}, [""]⟩ Body.garbage (fixedOrder [])).2.status ∧
        (gossipHandler ⟨"a", {"a"}, [""]⟩ Body.garbage (fixedOrder [])).2.status < 500) :=
  ⟨rfl, rfl, by decide⟩

/-- C4, amended: `gossipHandler` writes the success acknowledgment with status
200 for every request body, whether deserialization succeeded or failed; it has
no client-error response. -/
theorem gossipHandler_response (g : members) (b : Body) (order : RangeOrder) :
    (gossipHandler g b order).2 = { status := 200, body := "success" } := rfl

/-- C5 (the code departs from the claim): on the first round of a node "a"
started without a seed, `getRandomMember` returns its error with the empty
string, and the round still posts the payload {"a"}, to the URL built from the
empty peer address, instead of going to `WAIT`. -/
theorem gossipRound_posts_after_getRandomMember_error :
    ∃ m0 : members,
      startup ⟨"a", ""⟩ = .ok m0 ∧
      getRandomMember m0 = .ok (m0, "", some .noMembers) ∧
      gossipRound m0 = .ok (m0, .posted "http:///gossip" {"a"}) :=
  ⟨⟨"a", {"a"}, [""]⟩, rfl, rfl, rfl⟩

/-- C6 (the claim as stated fails): the queue of a node "a" started without a
seed is non-empty, with head the empty string and no remainder, and
`getRandomMember` returns the error; on the queue with head "" and remainder
["b"] it returns the error too and leaves the queue as it is, not ["b", ""]. -/
theorem getRandomMember_empty_head_not_rotated :
    (∃ m0 : members,
      startup ⟨"a", ""⟩ = .ok m0 ∧
      m0.randomizedMemberList = "" :: [] ∧
      getRandomMember m0 = .ok (m0, "", some .noMembers)) ∧
    getRandomMember ⟨"a", {"a", "", "b"}, "" :: ["b"]⟩
      = .ok (⟨"a", {"a", "", "b"}, ["", "b"]⟩, "", some .noMembers) ∧
    (⟨"a", {"a", "", "b"}, ["", "b"]⟩ : members).randomizedMemberList ≠ ["b"] ++ [""] :=
  ⟨⟨⟨"a", {"a"}, [""]⟩, rfl, rfl, rfl⟩, rfl, by decide⟩

/-- C6, amended: for every queue with head `h` other than the empty string and
remainder `t`, `getRandomMember` returns `h` without error and leaves the queue
equal to `t` followed by `h`; the rest of the state is untouched. -/
theorem getRandomMember_rotates (m : members) (h : String) (t : List String)
    (hq : m.randomizedMemberList = h :: t) (hne : h ≠ "") :
    getRandomMember m = .ok ({ m with randomizedMemberList := t ++ [h] }, h, none) := by
  simp [getRandomMember, hq, hne]

/-- C6 amended, at a concrete input: the queue ["b", "c"]. -/
theorem getRandomMember_rotates_witness :
    (⟨"a", {"a", "b", "c"}, ["b", "c"]⟩ : members).randomizedMemberList = "b" :: ["c"] ∧
    "b" ≠ "" ∧
    getRandomMember ⟨"a", {"a", "b", "c"}, ["b", "c"]⟩
      = .ok ({ (⟨"a", {"a", "b", "c"}, ["b", "c"]⟩ : members) with
                randomizedMemberList := ["c"] ++ ["b"] }, "b", none) :=
  ⟨rfl, by decide, getRandomMember_rotates _ "b" ["c"] rfl (by decide)⟩

/-- C7 (the claim as stated fails): the queue of a node "a" started without a
seed has length 1 and its one call returns the error; on the queue ["", "b"] of
length 2 the two calls both return the error with the empty string, and "b" is
not returned. -/
theorem getRandomMemberN_stuck_on_empty_head :
    (∃ m0 : members,
      startup ⟨"a", ""⟩ = .ok m0 ∧
      getRandomMemberN m0.randomizedMemberList.length m0
        = .ok (m0, [("", some .noMembers)])) ∧
    getRandomMemberN (["", "b"] : List String).length ⟨"a", {"a", "", "b"}, ["", "b"]⟩
      = .ok (⟨"a", {"a", "", "b"}, ["", "b"]⟩, [("", some .noMembers), ("", some .noMembers)]) :=
  ⟨⟨⟨"a", {"a"}, [""]⟩, rfl, rfl⟩, rfl⟩

/-- C7, amended: for every queue of length N that holds no empty string,
calling `getRandomMember` N times in a row returns the entries of the queue,
each once, in queue order and without error, and leaves the state, the queue
included, as it was. -/
theorem getRandomMemberN_round_trip (m : members) (hne : "" ∉ m.randomizedMemberList) :
    getRandomMemberN m.randomizedMemberList.length m
      = .ok (m, m.randomizedMemberList.map (fun a => (a, none))) := by
  have h := getRandomMemberN_append m.self m.members m.randomizedMemberList [] hne
  simpa using h

/-- C7 amended, at a concrete input: the queue ["b", "c", "d"]. -/
theorem getRandomMemberN_round_trip_witness :
    "" ∉ (⟨"a", {"a", "b", "c", "d"}, ["b", "c", "d"]⟩ : members).randomizedMemberList ∧
    getRandomMemberN 3 ⟨"a", {"a", "b", "c", "d"}, ["b", "c", "d"]⟩
      = .ok (⟨"a", {"a", "b", "c", "d"}, ["b", "c", "d"]⟩,
          [("b", none), ("c", none), ("d", none)]) :=
  ⟨by decide, getRandomMemberN_round_trip ⟨"a", {"a", "b", "c", "d"}, ["b", "c", "d"]⟩ (by decide)⟩

/-- C8: for a `members` value constructed, as in `main`, with the listen
address as `self`, the queue after `randomizeMembers` does not contain `self`,
whatever the Membership Set and the previous queue hold and in whatever order
the map is visited. -/
theorem randomizeMembers_excludes_self (f : Flags) (m : members) (order : RangeOrder)
    (hself : m.self = f.listenAddress) :
    m.self ∉ (randomizeMembers f m order).randomizedMemberList := by
  intro h
  simp only [randomizeMembers] at h
  rcases (mem_randomizeLoop f _ [] m.self).1 h with h0 | ⟨_, hne⟩
  · simp at h0
  · exact hne hself

/-- C8, at a concrete input: the node "a" knowing {"a", "b"}, whose queue held
"a" before the refresh. -/
theorem randomizeMembers_excludes_self_witness :
    (⟨"a", {"a", "b"}, ["a"]⟩ : members).self = (⟨"a", "a"⟩ : Flags).listenAddress ∧
    (⟨"a", {"a", "b"}, ["a"]⟩ : members).self
      ∉ (randomizeMembers ⟨"a", "a"⟩ ⟨"a", {"a", "b"}, ["a"]⟩
          (fixedOrder ["a", "b"])).randomizedMemberList :=
  ⟨rfl, randomizeMembers_excludes_self ⟨"a", "a"⟩ ⟨"a", {"a", "b"}, ["a"]⟩ _ rfl⟩

/-- C9 (the code departs from the claim): a node started with its own address
"a" as the seed peer has the queue ["a"] after initialization, so the queue
contains the node's own address, and the first round posts to the node itself. -/
theorem startup_queue_contains_self_seed :
    ∃ m0 : members,
      startup ⟨"a", "a"⟩ = .ok m0 ∧
      m0.self = "a" ∧
      m0.self ∈ m0.randomizedMemberList ∧
      gossipRound m0 = .ok (m0, .posted "http://a/gossip" {"a"}) :=
  ⟨⟨"a", {"a"}, ["a"]⟩, rfl, rfl, by decide, rfl⟩

/-- C10: for a `members` value with the listen address as `self`, after
`randomizeMembers` every address of the Membership Set other than `self` is in
the queue, in whatever order the map is visited. -/
theorem randomizeMembers_covers_members (f : Flags) (m : members) (order : RangeOrder)
    (hself : m.self = f.listenAddress) (hrange : IsRange m.members (order m.members))
    (a : String) (ha : a ∈ m.members) (hne : a ≠ m.self) :
    a ∈ (randomizeMembers f m order).randomizedMemberList := by
  simp only [randomizeMembers]
  refine (mem_randomizeLoop f _ [] a).2 (Or.inr ⟨?_, hself ▸ hne⟩)
  have : a ∈ (order m.members).toFinset := by rw [hrange.2]; exact ha
  simpa using this

/-- C10, at a concrete input: the node "a" knowing {"a", "b", "c"}, and the
address "c". -/
theorem randomizeMembers_covers_members_witness :
    (⟨"a", {"a", "b", "c"}, [""]⟩ : members).self = (⟨"a", ""⟩ : Flags).listenAddress ∧
    IsRange (⟨"a", {"a", "b", "c"}, [""]⟩ : members).members
      (fixedOrder ["c", "a", "b"] (⟨"a", {"a", "b", "c"}, [""]⟩ : members).members) ∧
    "c" ∈ (⟨"a", {"a", "b", "c"}, [""]⟩ : members).members ∧
    "c" ≠ (⟨"a", {"a", "b", "c"}, [""]⟩ : members).self ∧
    "c" ∈ (randomizeMembers ⟨"a", ""⟩ ⟨"a", {"a", "b", "c"}, [""]⟩
        (fixedOrder ["c", "a", "b"])).randomizedMemberList :=
  ⟨rfl, by decide, by decide, by decide,
    randomizeMembers_covers_members ⟨"a", ""⟩ ⟨"a", {"a", "b", "c"}, [""]⟩
      (fixedOrder ["c", "a", "b"]) rfl (by decide) "c" (by decide) (by decide)⟩

/-! ## Further lemmas -/

theorem jsonUnmarshal_payloadBody (P : Finset String) :
    jsonUnmarshal (payloadBody P) = (P, none) := by
  simp [jsonUnmarshal, payloadBody, fitsEmptyStruct, List.map_map, Function.comp_def]

theorem randomizeLoop_eq_filter (f : Flags) (ks acc : List String) :
    randomizeLoop f ks acc = acc ++ ks.filter (fun k => decide (k ≠ f.listenAddress)) := by
  induction ks generalizing acc with
  | nil => simp [randomizeLoop]
  | cons k ks ih =>
    unfold randomizeLoop
    by_cases hk : k = f.listenAddress
    · simp [hk, ih]
    · simp [hk, ih]

theorem subset_mergeLoop (ks : List String) (ms : Finset String) : ms ⊆ mergeLoop ks ms := by
  intro a ha
  exact (mem_mergeLoop ks ms a).2 (Or.inl ha)

theorem gossipHandler_members_of_decode (g : members) (b : Body) (order : RangeOrder)
    (P : Finset String) (e : Option GoError) (hdec : jsonUnmarshal b = (P, e))
    (hrange : IsRange P (order P)) :
    (gossipHandler g b order).1.members = g.members ∪ P := by
  simp only [gossipHandler, hdec]
  exact mergeLoop_of_isRange hrange g.members

theorem getRandomMember_error_iff (m m1 : members) (r : String) (e : GoError)
    (h : getRandomMember m = .ok (m1, r, some e)) :
    m1 = m ∧ r = "" ∧ e = .noMembers ∧ ∃ t, m.randomizedMemberList = "" :: t := by
  unfold getRandomMember at h
  split at h
  · cases h
  · rename_i rand rest hq
    split at h
    · rename_i hr
      cases h
      exact ⟨rfl, hr, rfl, rest, by rw [hq, hr]⟩
    · cases h

theorem getRandomMemberN_of_error (m : members)
    (h : getRandomMember m = .ok (m, "", some .noMembers)) (n : Nat) :
    getRandomMemberN n m = .ok (m, List.replicate n ("", some .noMembers)) := by
  induction n with
  | zero => rfl
  | succ n ih => simp [getRandomMemberN, h, ih, List.replicate_succ]

theorem Step.members_subset {f : Flags} {x y : members} (h : Step f x y) :
    x.members ⊆ y.members := by
  cases h with
  | init _ hinit =>
    unfold initialMembers at hinit
    cases hq : x.randomizedMemberList with
    | nil => simp [hq] at hinit
    | cons a rest =>
      simp only [hq] at hinit
      have hy := Except.ok.inj hinit
      subst hy
      simp only
      split
      · exact (Finset.subset_insert _ _).trans (Finset.subset_insert _ _)
      · exact Finset.subset_insert _ _
  | merge b order => exact subset_mergeLoop _ _
  | refresh order => exact Finset.Subset.refl _
  | target _ r e ht => rw [(getRandomMember_self _ _ r e ht).2]
  | round _ pf act printed hr =>
    unfold gossipRoundPost at hr
    split at hr
    · cases hr
    · rename_i g1 hg
      cases hr
      rw [(gossipRound_self _ _ _ hg).2]
    · rename_i g1 url payload hg
      cases hr
      rw [(gossipRound_self _ _ _ hg).2]

/-! ## The claims, continued -/

/-- C11: when the body decodes without error to the key set `P`, once
`gossipHandler` has merged it and the refresh it spawned has run, every address
of `P` other than the node's own address is in the rotation queue. -/
theorem gossipHandler_refresh_covers_payload (f : Flags) (g : members) (b : Body)
    (o r : RangeOrder) (P : Finset String) (hself : g.self = f.listenAddress)
    (hdec : jsonUnmarshal b = (P, none)) (ho : IsRange P (o P))
    (hr : IsRange (gossipHandler g b o).1.members (r (gossipHandler g b o).1.members))
    (a : String) (ha : a ∈ P) (hne : a ≠ g.self) :
    a ∈ (randomizeMembers f (gossipHandler g b o).1 r).randomizedMemberList := by
  have hm := gossipHandler_members_of_decode g b o P none hdec ho
  simp only [randomizeMembers]
  refine (mem_randomizeLoop f _ [] a).2 (Or.inr ⟨?_, hself ▸ hne⟩)
  have hmem : a ∈ (r (gossipHandler g b o).1.members).toFinset := by
    rw [hr.2, hm]
    exact Finset.mem_union_right _ ha
  simpa using hmem

/-- C11, at a concrete input: the node "a" knowing {"a"} with the placeholder
queue receives the body `{"a":{},"b":{}}` and learns "b". -/
theorem gossipHandler_refresh_covers_payload_witness :
    (⟨"a", {"a"}, [""]⟩ : members).self = (⟨"a", ""⟩ : Flags).listenAddress ∧
    jsonUnmarshal (.json (.object [("a", .object []), ("b", .object [])])) = ({"a", "b"}, none) ∧
    IsRange {"a", "b"} (fixedOrder ["b", "a"] {"a", "b"}) ∧
    "b" ∈ ({"a", "b"} : Finset String) ∧
    "b" ≠ (⟨"a", {"a"}, [""]⟩ : members).self ∧
    "b" ∈ (randomizeMembers ⟨"a", ""⟩
        (gossipHandler ⟨"a", {"a"}, [""]⟩
          (.json (.object [("a", .object []), ("b", .object [])])) (fixedOrder ["b", "a"])).1
        (fixedOrder ["a", "b"])).randomizedMemberList :=
  ⟨rfl, rfl, by decide, by decide, by decide,
    gossipHandler_refresh_covers_payload ⟨"a", ""⟩ ⟨"a", {"a"}, [""]⟩
      (.json (.object [("a", .object []), ("b", .object [])])) (fixedOrder ["b", "a"])
      (fixedOrder ["a", "b"]) {"a", "b"} rfl rfl (by decide) (by decide) "b" (by decide)
      (by decide)⟩

/-- C12: for bodies that decode without error to the sets `A` and `B`, merging
`A` and then `B` gives the same Membership Set as merging `B` and then `A`, the
set before united with `A ∪ B` (hence `A ∪ B` when the set before is empty), and
merging `B` once more after that leaves the Membership Set unchanged. -/
theorem gossipHandler_merge_comm_idem (g : members) (bA bB : Body) (A B : Finset String)
    (oA oB oB1 oA1 oB2 : RangeOrder)
    (hA : jsonUnmarshal bA = (A, none)) (hB : jsonUnmarshal bB = (B, none))
    (hoA : IsRange A (oA A)) (hoB : IsRange B (oB B))
    (hoB1 : IsRange B (oB1 B)) (hoA1 : IsRange A (oA1 A)) (hoB2 : IsRange B (oB2 B)) :
    (gossipHandler (gossipHandler g bA oA).1 bB oB).1.members
        = (gossipHandler (gossipHandler g bB oB1).1 bA oA1).1.members ∧
      (gossipHandler (gossipHandler g bA oA).1 bB oB).1.members = g.members ∪ (A ∪ B) ∧
      (g.members = ∅ → (gossipHandler (gossipHandler g bA oA).1 bB oB).1.members = A ∪ B) ∧
      (gossipHandler (gossipHandler (gossipHandler g bA oA).1 bB oB).1 bB oB2).1.members
        = (gossipHandler (gossipHandler g bA oA).1 bB oB).1.members := by
  have hab : (gossipHandler (gossipHandler g bA oA).1 bB oB).1.members = g.members ∪ (A ∪ B) := by
    rw [gossipHandler_members_of_decode _ bB oB B none hB hoB,
      gossipHandler_members_of_decode g bA oA A none hA hoA, Finset.union_assoc]
  have hba : (gossipHandler (gossipHandler g bB oB1).1 bA oA1).1.members
      = g.members ∪ (A ∪ B) := by
    rw [gossipHandler_members_of_decode _ bA oA1 A none hA hoA1,
      gossipHandler_members_of_decode g bB oB1 B none hB hoB1, Finset.union_assoc,
      Finset.union_comm B A]
  refine ⟨hab.trans hba.symm, hab, ?_, ?_⟩
  · intro hg
    rw [hab, hg, Finset.empty_union]
  · rw [gossipHandler_members_of_decode _ bB oB2 B none hB hoB2, hab, Finset.union_assoc,
      Finset.union_assoc, Finset.union_self]

/-- C12, at a concrete input: the sets {"a", "b"} and {"b", "c"} merged into
the empty set of `newMembers`. -/
theorem gossipHandler_merge_comm_idem_witness :
    jsonUnmarshal (.json (.object [("a", .object []), ("b", .object [])])) = ({"a", "b"}, none) ∧
    jsonUnmarshal (.json (.object [("b", .object []), ("c", .object [])])) = ({"b", "c"}, none) ∧
    IsRange {"a", "b"} (fixedOrder ["a", "b"] {"a", "b"}) ∧
    IsRange {"b", "c"} (fixedOrder ["c", "b"] {"b", "c"}) ∧
    (gossipHandler (gossipHandler (newMembers "n")
        (.json (.object [("a", .object []), ("b", .object [])])) (fixedOrder ["a", "b"])).1
        (.json (.object [("b", .object []), ("c", .object [])])) (fixedOrder ["c", "b"])).1.members
      = (gossipHandler (gossipHandler (newMembers "n")
        (.json (.object [("b", .object []), ("c", .object [])])) (fixedOrder ["c", "b"])).1
        (.json (.object [("a", .object []), ("b", .object [])])) (fixedOrder ["a", "b"])).1.members ∧
    ((newMembers "n").members = ∅ →
      (gossipHandler (gossipHandler (newMembers "n")
        (.json (.object [("a", .object []), ("b", .object [])])) (fixedOrder ["a", "b"])).1
        (.json (.object [("b", .object []), ("c", .object [])])) (fixedOrder ["c", "b"])).1.members
      = {"a", "b"} ∪ {"b", "c"}) :=
  have h := gossipHandler_merge_comm_idem (newMembers "n")
    (.json (.object [("a", .object []), ("b", .object [])]))
    (.json (.object [("b", .object []), ("c", .object [])])) {"a", "b"} {"b", "c"}
    (fixedOrder ["a", "b"]) (fixedOrder ["c", "b"]) (fixedOrder ["c", "b"])
    (fixedOrder ["a", "b"]) (fixedOrder ["c", "b"]) rfl rfl (by decide) (by decide) (by decide)
    (by decide) (by decide)
  ⟨rfl, rfl, by decide, by decide, h.1, h.2.2.1⟩

/-- C13: along every execution made of the operations of the subsystem
(`initialMembers`, the merge of `gossipHandler`, `randomizeMembers`,
`getRandomMember`, a gossip round), the Membership Set at a later state
contains the set at an earlier one, so its size never decreases. -/
theorem members_monotone (f : Flags) (m m1 : members)
    (h : Relation.ReflTransGen (Step f) m m1) :
    m.members ⊆ m1.members ∧ m.members.card ≤ m1.members.card := by
  have hsub : m.members ⊆ m1.members := by
    induction h with
    | refl => exact Finset.Subset.refl _
    | tail _ hstep ih => exact ih.trans (Step.members_subset hstep)
  exact ⟨hsub, Finset.card_le_card hsub⟩

/-- C13, at a concrete execution: `initialMembers` on the fresh state of the
node "a" with seed "b", then a served request with body `{"c":{}}`, then a
refresh, then a round whose push fails. -/
theorem members_monotone_witness :
    Relation.ReflTransGen (Step ⟨"a", "b"⟩) (newMembers "a")
      (randomizeMembers ⟨"a", "b"⟩
        (gossipHandler ⟨"a", {"b", "a"}, ["b"]⟩ (.json (.object [("c", .object [])]))
          (fixedOrder ["c"])).1 (fixedOrder ["a", "b", "c"])) ∧
    (newMembers "a").members ⊆ (randomizeMembers ⟨"a", "b"⟩
        (gossipHandler ⟨"a", {"b", "a"}, ["b"]⟩ (.json (.object [("c", .object [])]))
          (fixedOrder ["c"])).1 (fixedOrder ["a", "b", "c"])).members ∧
    (newMembers "a").members.card ≤ (randomizeMembers ⟨"a", "b"⟩
        (gossipHandler ⟨"a", {"b", "a"}, ["b"]⟩ (.json (.object [("c", .object [])]))
          (fixedOrder ["c"])).1 (fixedOrder ["a", "b", "c"])).members.card :=
  have hrun : Relation.ReflTransGen (Step ⟨"a", "b"⟩) (newMembers "a")
      (randomizeMembers ⟨"a", "b"⟩
        (gossipHandler ⟨"a", {"b", "a"}, ["b"]⟩ (.json (.object [("c", .object [])]))
          (fixedOrder ["c"])).1 (fixedOrder ["a", "b", "c"])) :=
    ((Relation.ReflTransGen.single
      (@Step.init ⟨"a", "b"⟩ (newMembers "a") ⟨"a", {"b", "a"}, ["b"]⟩ rfl)).tail
      (Step.merge _ (.json (.object [("c", .object [])])) (fixedOrder ["c"]))).tail
      (Step.refresh _ (fixedOrder ["a", "b", "c"]))
  ⟨hrun, members_monotone _ _ _ hrun⟩

/-- C14: after `newMembers(self)` followed by `initialMembers` with seed-peer
value `s`, the Membership Set is exactly {self} when `s` is the empty string
and exactly {self, s} otherwise. -/
theorem initialMembers_members (f : Flags) (self : String) :
    ∃ m : members, initialMembers f (newMembers self) = .ok m ∧
      m.members = if f.initialPeer = "" then {self} else {self, f.initialPeer} := by
  by_cases hs : f.initialPeer = ""
  · exact ⟨_, rfl, by simp [newMembers, hs]⟩
  · exact ⟨_, rfl, by simp [newMembers, hs, Finset.pair_comm]⟩

/-- C15: a gossip round on a state with a non-empty queue completes, and it
leaves the Membership Set (and the node's own address) as they were, the same
way whether the push succeeds or fails with a transport error; the payload
pushed is the Membership Set. -/
theorem gossipRoundPost_members_unchanged (g : members)
    (hq : g.randomizedMemberList ≠ []) :
    ∃ (g1 : members) (url : String),
      (∀ postFails : Bool,
        gossipRoundPost g postFails = .ok (g1, .posted url g.members, postFails)) ∧
      g1.members = g.members ∧ g1.self = g.self := by
  cases hl : g.randomizedMemberList with
  | nil => exact absurd hl hq
  | cons h t =>
    by_cases hh : h = ""
    · refine ⟨g, "http://" ++ h ++ "/gossip", ?_, rfl, rfl⟩
      intro pf
      simp [gossipRoundPost, gossipRound, getRandomMember, hl, hh, jsonMarshal]
    · refine ⟨{ g with randomizedMemberList := t ++ [h] }, "http://" ++ h ++ "/gossip", ?_,
        rfl, rfl⟩
      intro pf
      simp [gossipRoundPost, gossipRound, getRandomMember, hl, hh, jsonMarshal]

/-- C15, at a concrete input: the node "a" knowing {"a", "b"} with queue
["b"]. -/
theorem gossipRoundPost_members_unchanged_witness :
    (⟨"a", {"a", "b"}, ["b"]⟩ : members).randomizedMemberList ≠ [] ∧
    ∃ (g1 : members) (url : String),
      (∀ postFails : Bool,
        gossipRoundPost ⟨"a", {"a", "b"}, ["b"]⟩ postFails
          = .ok (g1, .posted url (⟨"a", {"a", "b"}, ["b"]⟩ : members).members, postFails)) ∧
      g1.members = (⟨"a", {"a", "b"}, ["b"]⟩ : members).members ∧
      g1.self = (⟨"a", {"a", "b"}, ["b"]⟩ : members).self :=
  ⟨by decide, gossipRoundPost_members_unchanged ⟨"a", {"a", "b"}, ["b"]⟩ (by decide)⟩

/-- C18: when `getRandomMember` returns its error, the head of the queue is
the empty string, the state (the queue included) is left as it was, and any
number of further calls returns the error with the empty string each time, so
no address behind the empty-string head is returned. -/
theorem getRandomMember_error_sticks (m m1 : members) (r : String) (e : GoError)
    (h : getRandomMember m = .ok (m1, r, some e)) :
    m1 = m ∧ m1.randomizedMemberList = m.randomizedMemberList ∧
      m.randomizedMemberList.head? = some "" ∧
      ∀ n : Nat, getRandomMemberN n m = .ok (m, List.replicate n ("", some .noMembers)) := by
  obtain ⟨h1, hr, he, t, ht⟩ := getRandomMember_error_iff m m1 r e h
  subst h1 hr he
  exact ⟨rfl, rfl, by rw [ht]; rfl, getRandomMemberN_of_error m1 h⟩

/-- C18, at a concrete input: the queue ["", "b"], three further calls. -/
theorem getRandomMember_error_sticks_witness :
    getRandomMember ⟨"a", {"a", "", "b"}, ["", "b"]⟩
      = .ok (⟨"a", {"a", "", "b"}, ["", "b"]⟩, "", some .noMembers) ∧
    getRandomMemberN 3 ⟨"a", {"a", "", "b"}, ["", "b"]⟩
      = .ok (⟨"a", {"a", "", "b"}, ["", "b"]⟩, List.replicate 3 ("", some .noMembers)) :=
  ⟨rfl, (getRandomMember_error_sticks ⟨"a", {"a", "", "b"}, ["", "b"]⟩ _ "" .noMembers
    rfl).2.2.2 3⟩

/-- C19: for a `members` value with the listen address as `self`, after
`randomizeMembers` the queue holds no address twice and its length is the
number of addresses of the Membership Set other than `self`, in whatever order
the map is visited. -/
theorem randomizeMembers_nodup_length (f : Flags) (m : members) (order : RangeOrder)
    (hself : m.self = f.listenAddress) (hrange : IsRange m.members (order m.members)) :
    (randomizeMembers f m order).randomizedMemberList.Nodup ∧
      (randomizeMembers f m order).randomizedMemberList.length
        = (m.members.erase m.self).card := by
  have hq : (randomizeMembers f m order).randomizedMemberList
      = (order m.members).filter (fun k => decide (k ≠ f.listenAddress)) := by
    simp [randomizeMembers, randomizeLoop_eq_filter]
  have hnd : ((order m.members).filter (fun k => decide (k ≠ f.listenAddress))).Nodup :=
    hrange.1.filter _
  have hset : ((order m.members).filter (fun k => decide (k ≠ f.listenAddress))).toFinset
      = m.members.erase m.self := by
    ext a
    simp only [List.mem_toFinset, List.mem_filter, decide_eq_true_eq, Finset.mem_erase, hself]
    rw [← List.mem_toFinset, hrange.2]
    exact And.comm
  rw [hq]
  exact ⟨hnd, by rw [← hset, List.toFinset_card_of_nodup hnd]⟩

/-- C19, at a concrete input: the node "a" knowing {"a", "b", "c"}. -/
theorem randomizeMembers_nodup_length_witness :
    (⟨"a", {"a", "b", "c"}, ["b"]⟩ : members).self = (⟨"a", "b"⟩ : Flags).listenAddress ∧
    IsRange (⟨"a", {"a", "b", "c"}, ["b"]⟩ : members).members
      (fixedOrder ["c", "a", "b"] (⟨"a", {"a", "b", "c"}, ["b"]⟩ : members).members) ∧
    (randomizeMembers ⟨"a", "b"⟩ ⟨"a", {"a", "b", "c"}, ["b"]⟩
        (fixedOrder ["c", "a", "b"])).randomizedMemberList.Nodup ∧
    (randomizeMembers ⟨"a", "b"⟩ ⟨"a", {"a", "b", "c"}, ["b"]⟩
        (fixedOrder ["c", "a", "b"])).randomizedMemberList.length
      = ((⟨"a", {"a", "b", "c"}, ["b"]⟩ : members).members.erase
          (⟨"a", {"a", "b", "c"}, ["b"]⟩ : members).self).card :=
  ⟨rfl, by decide,
    randomizeMembers_nodup_length ⟨"a", "b"⟩ ⟨"a", {"a", "b", "c"}, ["b"]⟩
      (fixedOrder ["c", "a", "b"]) rfl (by decide)⟩

/-- C20: after `newMembers(self)` followed by `initialMembers` with seed-peer
value `s`, the queue is the one-element list [s], whatever `self` is; the
first `getRandomMember` returns the error when `s` is the empty string and
returns `s` without error (the one-element queue rotating onto itself)
otherwise. -/
theorem initialMembers_queue (f : Flags) (self : String) :
    ∃ m : members, initialMembers f (newMembers self) = .ok m ∧
      m.randomizedMemberList = [f.initialPeer] ∧
      getRandomMember m =
        if f.initialPeer = "" then .ok (m, "", some .noMembers)
        else .ok (m, f.initialPeer, none) := by
  refine ⟨_, rfl, rfl, ?_⟩
  by_cases hs : f.initialPeer = ""
  · simp [getRandomMember, newMembers, hs]
  · simp [getRandomMember, newMembers, hs]

/-! ## The three-node scenario -/

theorem list_eq_singleton_of_toFinset (l : List String) (x : String) (hnd : l.Nodup)
    (h : l.toFinset = {x}) : l = [x] := by
  have hlen : l.length = 1 := by
    rw [← List.toFinset_card_of_nodup hnd, h, Finset.card_singleton]
  obtain ⟨z, rfl⟩ := List.length_eq_one.1 hlen
  have hz : z ∈ ([z] : List String).toFinset := by simp
  rw [h, Finset.mem_singleton] at hz
  rw [hz]

theorem list_eq_pair_of_toFinset (l : List String) (x y : String) (hxy : x ≠ y)
    (hnd : l.Nodup) (h : l.toFinset = {x, y}) : l = [x, y] ∨ l = [y, x] := by
  have hlen : l.length = 2 := by
    rw [← List.toFinset_card_of_nodup hnd, h, Finset.card_pair hxy]
  obtain ⟨z, w, rfl⟩ := List.length_eq_two.1 hlen
  have hz : z ∈ ([z, w] : List String).toFinset := by simp
  have hw : w ∈ ([z, w] : List String).toFinset := by simp
  rw [h, Finset.mem_insert, Finset.mem_singleton] at hz hw
  have hzw : z ≠ w := by
    intro e
    subst e
    simp at hnd
  rcases hz with rfl | rfl <;> rcases hw with rfl | rfl
  · exact absurd rfl hzw
  · exact Or.inl rfl
  · exact Or.inr rfl
  · exact absurd rfl hzw

theorem serve_eq (f : Flags) (g : members) (payload : Finset String) (o r : RangeOrder)
    (ho : IsRange payload (o payload)) :
    serve f g payload o r
      = ⟨g.self, g.members ∪ payload,
          (r (g.members ∪ payload)).filter (fun k => decide (k ≠ f.listenAddress))⟩ := by
  simp only [serve, randomizeMembers, gossipHandler, jsonUnmarshal_payloadBody,
    mergeLoop_of_isRange ho, randomizeLoop_eq_filter, List.nil_append]

theorem filter_range (x : String) (S : Finset String) (ks : List String) (h : IsRange S ks) :
    (ks.filter (fun k => decide (k ≠ x))).Nodup ∧
      (ks.filter (fun k => decide (k ≠ x))).toFinset = S.erase x := by
  refine ⟨h.1.filter _, ?_⟩
  ext a
  simp only [List.mem_toFinset, List.mem_filter, decide_eq_true_eq, Finset.mem_erase]
  rw [← List.mem_toFinset, h.2]
  exact And.comm

theorem serve_members (f : Flags) (g : members) (payload : Finset String) (o r : RangeOrder)
    (ho : IsRange payload (o payload)) (S : Finset String) (hS : g.members ∪ payload = S) :
    (serve f g payload o r).members = S := by
  rw [serve_eq f g payload o r ho, hS]

theorem serve_single (f : Flags) (g : members) (payload : Finset String) (o r : RangeOrder)
    (ho : IsRange payload (o payload)) (hr : ∀ s, IsRange s (r s)) (S : Finset String)
    (y : String) (hS : g.members ∪ payload = S) (hy : S.erase f.listenAddress = {y}) :
    serve f g payload o r = ⟨g.self, S, [y]⟩ := by
  rw [serve_eq f g payload o r ho, hS]
  have hq := filter_range f.listenAddress S (r S) (hr S)
  rw [list_eq_singleton_of_toFinset _ y hq.1 (hq.2.trans hy)]

theorem serve_pair (f : Flags) (g : members) (payload : Finset String) (o r : RangeOrder)
    (ho : IsRange payload (o payload)) (hr : ∀ s, IsRange s (r s)) (S : Finset String)
    (y z : String) (hyz : y ≠ z) (hS : g.members ∪ payload = S)
    (hy : S.erase f.listenAddress = {y, z}) :
    serve f g payload o r = ⟨g.self, S, [y, z]⟩ ∨ serve f g payload o r = ⟨g.self, S, [z, y]⟩ := by
  rw [serve_eq f g payload o r ho, hS]
  have hq := filter_range f.listenAddress S (r S) (hr S)
  rcases list_eq_pair_of_toFinset _ y z hyz hq.1 (hq.2.trans hy) with h | h
  · exact Or.inl (by rw [h])
  · exact Or.inr (by rw [h])

theorem startup_seeded (X Y : String) (hY : Y ≠ "") :
    startup ⟨X, Y⟩ = .ok ⟨X, {X, Y}, [Y]⟩ := by
  rw [startup_eq]
  simp only [ne_eq, hY, not_false_eq_true, if_true]
  rw [Finset.pair_comm]

theorem gossipRound_head (self : String) (ms : Finset String) (h : String) (t : List String)
    (hh : h ≠ "") :
    gossipRound ⟨self, ms, h :: t⟩
      = .ok (⟨self, ms, t ++ [h]⟩, .posted ("http://" ++ h ++ "/gossip") ms) := by
  simp [gossipRound, getRandomMember, jsonMarshal, hh]

/-- C16: for three distinct non-empty addresses A, B, C and every way the
`range` loops visit the maps: A starts with seed B and B with no seed; A's
first round targets B and pushes {A, B}; B, serving it, has the Membership Set
{A, B} and after the refresh the queue [A]; B's round targets A and pushes
{A, B}, which leaves A's state as it was; C starts with seed A and its round
pushes {A, C} to A, whose Membership Set becomes {A, B, C} with the queue
[B, C] or [C, B]; A's next round that targets B (the next round, or the one
after a round to C) pushes {A, B, C}; B, which did not know C, then has C in
its Membership Set. -/
theorem three_node_scenario (A B C : String) (hAB : A ≠ B) (hAC : A ≠ C) (hBC : B ≠ C)
    (hA : A ≠ "") (hB : B ≠ "") (hC : C ≠ "")
    (o : Nat → RangeOrder) (ho : ∀ i s, IsRange s (o i s)) :
    startup ⟨A, B⟩ = .ok ⟨A, {A, B}, [B]⟩ ∧
    startup ⟨B, ""⟩ = .ok ⟨B, {B}, [""]⟩ ∧
    gossipRound ⟨A, {A, B}, [B]⟩
      = .ok (⟨A, {A, B}, [B]⟩, .posted ("http://" ++ B ++ "/gossip") {A, B}) ∧
    serve ⟨B, ""⟩ ⟨B, {B}, [""]⟩ {A, B} (o 0) (o 1) = ⟨B, {A, B}, [A]⟩ ∧
    gossipRound ⟨B, {A, B}, [A]⟩
      = .ok (⟨B, {A, B}, [A]⟩, .posted ("http://" ++ A ++ "/gossip") {A, B}) ∧
    serve ⟨A, B⟩ ⟨A, {A, B}, [B]⟩ {A, B} (o 2) (o 3) = ⟨A, {A, B}, [B]⟩ ∧
    startup ⟨C, A⟩ = .ok ⟨C, {C, A}, [A]⟩ ∧
    gossipRound ⟨C, {C, A}, [A]⟩
      = .ok (⟨C, {C, A}, [A]⟩, .posted ("http://" ++ A ++ "/gossip") {C, A}) ∧
    ((serve ⟨A, B⟩ ⟨A, {A, B}, [B]⟩ {C, A} (o 4) (o 5) = ⟨A, {A, B, C}, [B, C]⟩ ∧
        gossipRound ⟨A, {A, B, C}, [B, C]⟩
          = .ok (⟨A, {A, B, C}, [C, B]⟩, .posted ("http://" ++ B ++ "/gossip") {A, B, C})) ∨
      (serve ⟨A, B⟩ ⟨A, {A, B}, [B]⟩ {C, A} (o 4) (o 5) = ⟨A, {A, B, C}, [C, B]⟩ ∧
        gossipRound ⟨A, {A, B, C}, [C, B]⟩
          = .ok (⟨A, {A, B, C}, [B, C]⟩, .posted ("http://" ++ C ++ "/gossip") {A, B, C}) ∧
        gossipRound ⟨A, {A, B, C}, [B, C]⟩
          = .ok (⟨A, {A, B, C}, [C, B]⟩, .posted ("http://" ++ B ++ "/gossip") {A, B, C}))) ∧
    C ∉ (⟨B, {A, B}, [A]⟩ : members).members ∧
    (serve ⟨B, ""⟩ ⟨B, {A, B}, [A]⟩ {A, B, C} (o 6) (o 7)).members = {A, B, C} ∧
    C ∈ (serve ⟨B, ""⟩ ⟨B, {A, B}, [A]⟩ {A, B, C} (o 6) (o 7)).members := by
  have hb3 : (serve ⟨B, ""⟩ ⟨B, {A, B}, [A]⟩ {A, B, C} (o 6) (o 7)).members = {A, B, C} := by
    refine serve_members _ _ _ _ _ (ho 6 _) _ ?_
    ext x
    simp only [Finset.mem_insert, Finset.mem_singleton, Finset.mem_union]
    tauto
  have ha3 : (({A, B} : Finset String) ∪ {C, A}) = {A, B, C} := by
    ext x
    simp only [Finset.mem_insert, Finset.mem_singleton, Finset.mem_union]
    tauto
  have he3 : ({A, B, C} : Finset String).erase A = {B, C} := by
    ext x
    simp only [Finset.mem_erase, Finset.mem_insert, Finset.mem_singleton]
    aesop
  refine ⟨startup_seeded A B hB, ?_, gossipRound_head A _ B [] hB, ?_,
    gossipRound_head B _ A [] hA, ?_, startup_seeded C A hA, gossipRound_head C _ A [] hA,
    ?_, ?_, hb3, ?_⟩
  · rw [startup_eq]
    simp
  · refine serve_single ⟨B, ""⟩ ⟨B, {B}, [""]⟩ {A, B} (o 0) (o 1) (ho 0 _) (ho 1) {A, B} A ?_ ?_
    · ext x
      simp only [Finset.mem_insert, Finset.mem_singleton, Finset.mem_union]
      tauto
    · ext x
      simp only [Finset.mem_erase, Finset.mem_insert, Finset.mem_singleton]
      aesop
  · refine serve_single ⟨A, B⟩ ⟨A, {A, B}, [B]⟩ {A, B} (o 2) (o 3) (ho 2 _) (ho 3) {A, B} B ?_ ?_
    · exact Finset.union_self _
    · ext x
      simp only [Finset.mem_erase, Finset.mem_insert, Finset.mem_singleton]
      aesop
  · rcases serve_pair ⟨A, B⟩ ⟨A, {A, B}, [B]⟩ {C, A} (o 4) (o 5) (ho 4 _) (ho 5) {A, B, C}
      B C hBC ha3 he3 with h | h
    · exact Or.inl ⟨h, gossipRound_head A _ B [C] hB⟩
    · exact Or.inr ⟨h, gossipRound_head A _ C [B] hC, gossipRound_head A _ B [C] hB⟩
  · simp only [Finset.mem_insert, Finset.mem_singleton, not_or]
    exact ⟨fun h => hAC h.symm, fun h => hBC h.symm⟩
  · rw [hb3]
    simp

/-- C16, at a concrete input: the addresses "a", "b", "c", every `range` loop
visiting the keys in sorted order. -/
theorem three_node_scenario_witness :
    "a" ≠ "b" ∧ "a" ≠ "c" ∧ "b" ≠ "c" ∧ "a" ≠ "" ∧ "b" ≠ "" ∧ "c" ≠ "" ∧
    (∀ (_ : Nat) (s : Finset String), IsRange s (sortedOrder s)) ∧
    (startup ⟨"a", "b"⟩ = .ok ⟨"a", {"a", "b"}, ["b"]⟩ ∧
      startup ⟨"b", ""⟩ = .ok ⟨"b", {"b"}, [""]⟩ ∧
      gossipRound ⟨"a", {"a", "b"}, ["b"]⟩
        = .ok (⟨"a", {"a", "b"}, ["b"]⟩, .posted ("http://" ++ "b" ++ "/gossip") {"a", "b"}) ∧
      serve ⟨"b", ""⟩ ⟨"b", {"b"}, [""]⟩ {"a", "b"} sortedOrder sortedOrder = ⟨"b", {"a", "b"}, ["a"]⟩ ∧
      gossipRound ⟨"b", {"a", "b"}, ["a"]⟩
        = .ok (⟨"b", {"a", "b"}, ["a"]⟩, .posted ("http://" ++ "a" ++ "/gossip") {"a", "b"}) ∧
      serve ⟨"a", "b"⟩ ⟨"a", {"a", "b"}, ["b"]⟩ {"a", "b"} sortedOrder sortedOrder = ⟨"a", {"a", "b"}, ["b"]⟩ ∧
      startup ⟨"c", "a"⟩ = .ok ⟨"c", {"c", "a"}, ["a"]⟩ ∧
      gossipRound ⟨"c", {"c", "a"}, ["a"]⟩
        = .ok (⟨"c", {"c", "a"}, ["a"]⟩, .posted ("http://" ++ "a" ++ "/gossip") {"c", "a"}) ∧
      ((serve ⟨"a", "b"⟩ ⟨"a", {"a", "b"}, ["b"]⟩ {"c", "a"} sortedOrder sortedOrder = ⟨"a", {"a", "b", "c"}, ["b", "c"]⟩ ∧
          gossipRound ⟨"a", {"a", "b", "c"}, ["b", "c"]⟩
            = .ok (⟨"a", {"a", "b", "c"}, ["c", "b"]⟩, .posted ("http://" ++ "b" ++ "/gossip") {"a", "b", "c"})) ∨
        (serve ⟨"a", "b"⟩ ⟨"a", {"a", "b"}, ["b"]⟩ {"c", "a"} sortedOrder sortedOrder = ⟨"a", {"a", "b", "c"}, ["c", "b"]⟩ ∧
          gossipRound ⟨"a", {"a", "b", "c"}, ["c", "b"]⟩
            = .ok (⟨"a", {"a", "b", "c"}, ["b", "c"]⟩, .posted ("http://" ++ "c" ++ "/gossip") {"a", "b", "c"}) ∧
          gossipRound ⟨"a", {"a", "b", "c"}, ["b", "c"]⟩
            = .ok (⟨"a", {"a", "b", "c"}, ["c", "b"]⟩, .posted ("http://" ++ "b" ++ "/gossip") {"a", "b", "c"}))) ∧
      "c" ∉ (⟨"b", {"a", "b"}, ["a"]⟩ : members).members ∧
      (serve ⟨"b", ""⟩ ⟨"b", {"a", "b"}, ["a"]⟩ {"a", "b", "c"} sortedOrder sortedOrder).members = {"a", "b", "c"} ∧
      "c" ∈ (serve ⟨"b", ""⟩ ⟨"b", {"a", "b"}, ["a"]⟩ {"a", "b", "c"} sortedOrder sortedOrder).members) :=
  ⟨by decide, by decide, by decide, by decide, by decide, by decide,
    fun _ s => ⟨Finset.sort_nodup _ s, Finset.sort_toFinset _ s⟩,
    three_node_scenario "a" "b" "c" (by decide) (by decide) (by decide) (by decide) (by decide)
      (by decide) (fun _ => sortedOrder)
      (fun _ s => ⟨Finset.sort_nodup _ s, Finset.sort_toFinset _ s⟩)⟩

/-! ## The refresh goroutine against the dissemination loop -/

theorem refreshSteps_loop (f : Flags) (order : RangeOrder) (ks : List String) :
    ∀ (m : members) (l : RWMutex),
      refreshSteps f order (ks.length + 1) (m, l, .atLoop ks)
        = some ({ m with randomizedMemberList := randomizeLoop f ks m.randomizedMemberList },
            { l with readers := l.readers - 1 }, .done) := by
  induction ks with
  | nil => intro m l; rfl
  | cons k ks ih =>
    intro m l
    by_cases hk : k = f.listenAddress
    · simp only [List.length_cons, refreshSteps, refreshStep, hk, if_true, randomizeLoop]
      have h := ih m l
      simp only [refreshSteps] at h
      exact h
    · simp only [List.length_cons, refreshSteps, refreshStep, hk, if_false, randomizeLoop]
      have h := ih { m with randomizedMemberList := m.randomizedMemberList ++ [k] } l
      simp only [refreshSteps] at h
      exact h

theorem refreshSteps_complete (f : Flags) (order : RangeOrder) (m : members) (l : RWMutex)
    (hl : l.writer = false) :
    refreshSteps f order ((order m.members).length + 3) (m, l, .atRLock)
      = some (randomizeMembers f m order, l, .done) := by
  have h := refreshSteps_loop f order (order m.members)
    { m with randomizedMemberList := [] } { l with readers := l.readers + 1 }
  have h1 : refreshStep f order (m, l, .atRLock)
      = some (m, { l with readers := l.readers + 1 }, .atMake) := by
    simp [refreshStep, hl]
  have h2 : refreshStep f order (m, { l with readers := l.readers + 1 }, .atMake)
      = some ({ m with randomizedMemberList := [] }, { l with readers := l.readers + 1 },
          .atLoop (order m.members)) := rfl
  have h3 : refreshSteps f order ((order m.members).length + 3) (m, l, .atRLock)
      = refreshSteps f order ((order m.members).length + 1)
          ({ m with randomizedMemberList := [] }, { l with readers := l.readers + 1 },
            .atLoop (order m.members)) := by
    show refreshSteps f order ((order m.members).length + 1 + 1 + 1) (m, l, .atRLock) = _
    rw [refreshSteps, h1]
    simp only
    rw [refreshSteps, h2]
  rw [h3, h]
  cases l
  simp [randomizeMembers]

/-- C17 (the code departs from the claim): on the node "a" knowing {"a", "b"}
with queue ["b"], the goroutine spawned by `gossipHandler` takes the read lock
and replaces the slice by an empty one; it is then in the middle of the
rebuild, holding the read lock, with both keys still to visit. A call of
`getRandomMember`, which has no lock operation, reads index 0 of that empty
queue and panics, although it returns "b" both before the refresh starts and
after the refresh has completed. -/
theorem getRandomMember_observes_rebuild :
    refreshSteps ⟨"a", ""⟩ (fixedOrder ["a", "b"]) 2
        (⟨"a", {"a", "b"}, ["b"]⟩, ⟨0, false⟩, .atRLock)
      = some (⟨"a", {"a", "b"}, []⟩, ⟨1, false⟩, .atLoop ["a", "b"]) ∧
    getRandomMember ⟨"a", {"a", "b"}, []⟩ = .error .indexOutOfRange ∧
    getRandomMember ⟨"a", {"a", "b"}, ["b"]⟩ = .ok (⟨"a", {"a", "b"}, ["b"]⟩, "b", none) ∧
    refreshSteps ⟨"a", ""⟩ (fixedOrder ["a", "b"]) 5
        (⟨"a", {"a", "b"}, ["b"]⟩, ⟨0, false⟩, .atRLock)
      = some (randomizeMembers ⟨"a", ""⟩ ⟨"a", {"a", "b"}, ["b"]⟩ (fixedOrder ["a", "b"]),
          ⟨0, false⟩, .done) ∧
    getRandomMember (randomizeMembers ⟨"a", ""⟩ ⟨"a", {"a", "b"}, ["b"]⟩ (fixedOrder ["a", "b"]))
      = .ok (⟨"a", {"a", "b"}, ["b"]⟩, "b", none) :=
  ⟨rfl, rfl, rfl, rfl, rfl⟩

end Gossip
